import Mathlib

/-!
Verification development for the CytoTable conversion pipeline
(sources: src/cytotable/utils.py and src/pycytominer_transform/convert.py).

The Python functions are shallowly embedded as executable Lean definitions:
Python strings become String, Python lists become List, pathlib paths become
an explicit record of directory components plus stem and suffix, fallible
Python code (raised exceptions) becomes Except, and the SQLite storage
classes become an inductive value type.  Each definition carries a comment
pointing at the source location it embeds.
-/

/-! ## String helpers shared by the embeddings

Python `str.lower()` is embedded as a character-wise ASCII lowercase map
(`Char.toLower`); the column names and file names handled by the pipeline
are ASCII.  Python `needle in haystack` (substring test) and
`str.startswith` are embedded as structurally recursive functions on the
underlying character lists so that they evaluate by kernel reduction.
-/

/-- Embedding of Python `str.lower()`. -/
def pyLower (s : String) : String := ⟨s.data.map Char.toLower⟩

/-- Predicate `startsL needle hay`: `hay` begins with `needle`
(embedding of Python `str.startswith`). -/
def startsL : List Char → List Char → Bool
  | [], _ => true
  | _ :: _, [] => false
  | a :: as, b :: bs => a == b && startsL as bs

/-- Predicate `hasSub needle hay`: `needle` occurs contiguously inside `hay`
(embedding of Python `needle in hay` on strings). -/
def hasSub (needle : List Char) : List Char → Bool
  | [] => startsL needle []
  | c :: rest => startsL needle (c :: rest) || hasSub needle rest

/-- Embedding of Python `list.index` restricted to strings
(first index of the element; total, returning the length when absent,
which matches the source because it is only called on members). -/
def list_index (a : String) : List String → Nat
  | [] => 0
  | b :: bs => if b = a then 0 else list_index a bs + 1

/-! ## cytotable/utils.py lines 58-108: `_column_sort` -/

/-- utils.py lines 69-76: names sorted first, by their index in this list. -/
def sort_first : List String :=
  ["tablenumber", "metadata_tablenumber", "imagenumber", "metadata_imagenumber",
   "objectnumber", "object_number"]

/-- utils.py lines 82-87: names sorted after the metadata block, ordered by
which entry the lowercased column name starts with. -/
def sort_later : List String := ["image", "cytoplasm", "cells", "nuclei"]

/-- Index (within `ls`) of the first entry that the lowercased value starts
with; embeds the `enumerate` loop of utils.py lines 102-105 (the `start=`
offset is added by the caller). -/
def later_rank (value_lower : String) : List String → Option Nat
  | [] => none
  | v :: vs =>
    if startsL v.data value_lower.data then some 0
    else (later_rank value_lower vs).map (· + 1)

/-- Embedding of `_column_sort` (utils.py lines 58-108): the sort key used
with Python `sorted` over column names. -/
def _column_sort (value : String) : Nat :=
  let value_lower := pyLower value
  if value_lower ∈ sort_first then list_index value_lower sort_first
  else if hasSub "metadata".data value_lower.data then sort_first.length
  else
    match later_rank value_lower sort_later with
    | some k => sort_first.length + 1 + k
    | none => sort_first.length + sort_later.length + 1

/-! Spec-side definitions for claim C3, following the spec's words
("identifier columns (table-number-like, then image-number-like, then
object-number-like, case-insensitive) sort first in that fixed order,
columns containing a metadata marker sort next, columns whose name starts
with one of the domain entity prefixes (image, cytoplasm, cells, nuclei)
sort after metadata ordered by which prefix matches, and all remaining
columns sort last").  They are compared with the code-side `_column_sort`. -/

/-- Spec-side identifier rank: 0 for a table-number-like key, 1 for an
image-number-like key, 2 for an object-number-like key (case-insensitive). -/
def spec_id_rank (x : String) : Option Nat :=
  if pyLower x = "tablenumber" ∨ pyLower x = "metadata_tablenumber" then some 0
  else if pyLower x = "imagenumber" ∨ pyLower x = "metadata_imagenumber" then some 1
  else if pyLower x = "objectnumber" ∨ pyLower x = "object_number" then some 2
  else none

/-- Spec-side entity rank: which of the domain entity names the
(lowercased) column name starts with, in the spec's fixed order. -/
def spec_entity_rank (x : String) : Option Nat :=
  if startsL "image".data (pyLower x).data then some 0
  else if startsL "cytoplasm".data (pyLower x).data then some 1
  else if startsL "cells".data (pyLower x).data then some 2
  else if startsL "nuclei".data (pyLower x).data then some 3
  else none

/-- Spec-side bucket of a column name: identifiers, then metadata-marked
columns, then entity-prefixed columns, then the rest. -/
def spec_bucket (x : String) : Nat :=
  if (spec_id_rank x).isSome then 0
  else if hasSub "metadata".data (pyLower x).data then 1
  else if (spec_entity_rank x).isSome then 2
  else 3

/-! ## cytotable/utils.py lines 152-236: `_sqlite_mixed_type_query_to_parquet` -/

/-- A SQLite runtime value, tagged by its storage class.  The payload of a
real value is opaque to the extraction query (it is only passed through or
replaced by null), so it is modelled by an uninterpreted number. -/
inductive SqlVal
  | vnull
  | vint (i : Int)
  | vreal (payload : Nat)
  | vtext (s : String)
  | vblob (b : List Nat)
deriving DecidableEq, Repr

/-- Embedding of the SQLite `typeof()` function: the storage class name of
a value. -/
def typeof : SqlVal → String
  | .vnull => "null"
  | .vint _ => "integer"
  | .vreal _ => "real"
  | .vtext _ => "text"
  | .vblob _ => "blob"

/-- One row of `pragma_table_info`: a column's name and declared type
(utils.py lines 189-204). -/
structure SqlCol where
  column_name : String
  column_type : String
deriving DecidableEq, Repr

/-- The per-column CASE expression of utils.py lines 207-217: when the
storage class of the value does not equal the lowercased declared type,
substitute NULL, otherwise pass the value through. -/
def mixed_case (c : SqlCol) (v : SqlVal) : SqlVal :=
  if typeof v ≠ pyLower c.column_type then SqlVal.vnull else v

/-- Apply the CASE expressions across one row (one output expression per
column of the table, in `pragma_table_info` order). -/
def mixed_row (cols : List SqlCol) (row : List SqlVal) : List SqlVal :=
  (cols.zip row).map (fun p => mixed_case p.1 p.2)

/-- Embedding of the SELECT of utils.py lines 219-227: the CASE expressions
applied to every row of the `LIMIT chunk_size OFFSET offset` window. -/
def _sqlite_mixed_type_query (cols : List SqlCol) (rows : List (List SqlVal))
    (chunk_size offset : Nat) : List (List SqlVal) :=
  ((rows.drop offset).take chunk_size).map (mixed_row cols)

/-! ## pycytominer_transform/convert.py: file discovery and grouping -/

/-- A discovered source file: its directory components (outermost first),
its stem (filename without the final extension) and its suffix (the final
extension, including the dot).  This is the shallow embedding of a
`pathlib.Path` as used by convert.py. -/
structure SourceFile where
  dirs : List String
  stem : String
  suffix : String
deriving DecidableEq, Repr

/-- Embedding of `Path.name`: filename with extension (stem plus suffix). -/
def fname (f : SourceFile) : String := f.stem ++ f.suffix

/-- Embedding of `Path.parent.name`: the immediate parent directory name. -/
def parent_name (f : SourceFile) : String := f.dirs.getLastD ""

/-- Embedding of `Path.parent.parent.name`: the grandparent directory name. -/
def grandparent_name (f : SourceFile) : String := f.dirs.dropLast.getLastD ""

/-- Errors raised by the embedded Python code. -/
inductive PyErr
  | typeErr   -- Python TypeError
  | noInput   -- the "No input data to process" Exception of convert.py line 44
deriving DecidableEq, Repr

/-- The eligibility test of convert.py line 39:
`str(file.stem).lower() in targets or targets is None`.
Python evaluates the membership test first, so when `targets` is `None`
the expression raises `TypeError` before the `is None` check is reached;
the dead `or targets is None` clause is the acceptance the spec describes. -/
def is_eligible (stem : String) (targets : Option (List String)) : Except PyErr Bool :=
  match targets with
  | none => .error .typeErr
  | some ts => .ok (ts.contains (pyLower stem))

/-- The files that pass the eligibility filter (convert.py lines 35-40),
for a present target list. -/
def eligible_records (files : List SourceFile) (ts : List String) : List SourceFile :=
  files.filter (fun f => ts.contains (pyLower f.stem))

/-- Embedding of `get_source_filepaths` (convert.py lines 17-56): filter
the walked files by target stem, fail when nothing was collected, then
group the records by full filename.  The Python `set` of names is embedded
as `List.dedup` (one key per distinct filename; set iteration order is not
observable in the claims).  When `targets` is `None` and at least one file
exists, the eligibility expression raises `TypeError` (see `is_eligible`). -/
def get_source_filepaths (files : List SourceFile) (targets : Option (List String)) :
    Except PyErr (List (String × List SourceFile)) :=
  match targets with
  | none => if files = [] then .error .noInput else .error .typeErr
  | some ts =>
    let records := eligible_records files ts
    if records.length < 1 then .error .noInput
    else
      .ok (((records.map fname).dedup).map
        (fun n => (n, records.filter (fun f => fname f == n))))

/-! ## convert.py lines 250-294: `infer_source_datatype` -/

/-- Python `group.split(".")[-1]`: the characters after the last dot
(the whole string when no dot is present). -/
def take_until_dot : List Char → List Char
  | [] => []
  | c :: cs => if c = '.' then [] else c :: take_until_dot cs

/-- The lowercased suffix of a grouping key (convert.py line 270). -/
def suffix_of (k : String) : String := pyLower ⟨(take_until_dot k.data.reverse).reverse⟩

/-- Embedding of `list(set(...))` over the lowercased suffixes of the grouping keys
(convert.py line 270). -/
def suffixes_of_keys (keys : List String) : List String :=
  (keys.map suffix_of).dedup

/-- Errors raised by `infer_source_datatype`. -/
inductive InferErr
  | ambiguousDatatype    -- "Detected more than one inferred datatypes", line 275
  | unavailableDatatype  -- "Unable to find targeted datatype", line 282
  | emptyIndex           -- IndexError of `suffixes[0]` on an empty key set, line 292
deriving DecidableEq, Repr

/-- Embedding of `infer_source_datatype` (convert.py lines 250-294).
The Python function checks the ambiguity condition (which requires a `None`
target), then the unavailability condition (which requires a present
target), then returns the target or the single suffix; the two match arms
reproduce exactly the branch reachable for each shape of the target. -/
def infer_source_datatype (keys : List String) (target_datatype : Option String) :
    Except InferErr String :=
  let suffixes := suffixes_of_keys keys
  match target_datatype with
  | none =>
    if 1 < suffixes.length then .error .ambiguousDatatype
    else
      match suffixes with
      | s :: _ => .ok s
      | [] => .error .emptyIndex
  | some t =>
    if t ∉ suffixes then .error .unavailableDatatype
    else .ok t

/-! ## convert.py lines 200-247: `write_parquet` destination naming,
and lines 447-468: the `unique_name` choice in `to_parquet` -/

/-- The destination filename computed by `write_parquet`
(convert.py lines 224-236): `<dest>/<stem>.parquet` by default, and
`<dest>/<parent-dir>.<stem>.parquet` when a unique name is requested. -/
def write_parquet_dest (f : SourceFile) (dest_path : String) (unique_name : Bool) : String :=
  if unique_name then
    dest_path ++ "/" ++ parent_name f ++ "." ++ f.stem ++ ".parquet"
  else
    dest_path ++ "/" ++ f.stem ++ ".parquet"

/-- The destination filename a group member receives in `to_parquet`
(convert.py lines 457-463): the unique-name flag is set exactly when the
group has at least two members. -/
def to_parquet_dest (group : List SourceFile) (dest_path : String) (r : SourceFile) : String :=
  write_parquet_dest r dest_path (decide (2 ≤ group.length))

/-! ## In-memory columnar tables -/

/-- A columnar table: ordered column names plus rows (one list of cell
values per row, positionally aligned with the column names). -/
structure ATable (α : Type) where
  cols : List String
  rows : List (List α)
deriving DecidableEq, Repr

/-- Index of a named column (first occurrence) in a column-name list. -/
def colIdx (n : String) : List String → Option Nat
  | [] => none
  | c :: cs => if c = n then some 0 else (colIdx n cs).map (· + 1)

/-- Reading a file while projecting columns into a requested order
(`parquet.read_table(table, columns=...)`, convert.py line 186): for each
requested name, the cell of the column bearing that name. -/
def projectRow (cols canon : List String) (row : List α) : List α :=
  canon.filterMap (fun c => (colIdx c cols).bind (fun i => row[i]?))

/-- The rows appended by the writer loop of convert.py lines 181-187: each
member table's rows, projected into the canonical column order, in member
order. -/
def stream_rows (canon : List String) : List (ATable α) → List (List α)
  | [] => []
  | t :: ts => t.rows.map (projectRow t.cols canon) ++ stream_rows canon ts

/-- Embedding of the streaming branch of `concat_record_group`
(convert.py lines 157-195): the first member's schema is the canonical
column order and every member (the first included) is appended projected
into it. -/
def concat_record_group_streaming (g : List (ATable α)) : Option (ATable α) :=
  match g with
  | [] => none
  | basis :: _ => some ⟨basis.cols, stream_rows basis.cols g⟩

/-! ## convert.py lines 200-247: `write_parquet` as a record transform -/

/-- The input record of `write_parquet`: a source path and an in-memory
table. -/
structure WriteRecord where
  source_path : SourceFile
  table : ATable Int
deriving DecidableEq, Repr

/-- The output record of `write_parquet`: the destination path, the table
as serialized into the parquet file (`parquet.write_table` at convert.py
line 239 writes `record["table"]` as-is), and the retained source path
(the in-memory `table` key itself is deleted at line 242). -/
structure WriteOutput where
  source_path : SourceFile
  destination_path : String
  artifact : ATable Int
deriving DecidableEq, Repr

/-- Embedding of `write_parquet` (convert.py lines 200-247). -/
def write_parquet (r : WriteRecord) (dest_path : String) (unique_name : Bool) : WriteOutput :=
  { source_path := r.source_path
    destination_path := write_parquet_dest r.source_path dest_path unique_name
    artifact := r.table }

/-! ## convert.py lines 82-197: `concat_records` / `concat_record_group`
with their filesystem effects -/

/-- Filesystem events performed by the streaming concatenation: creating
the destination writer's file, appending one member file's rows to it, and
unlinking a member file. -/
inductive CEvent
  | create (path : String)
  | append (path : String)
  | delete (path : String)
deriving DecidableEq, Repr

/-- The events of the writer loop (convert.py lines 181-189): for each
member file in order, append its rows, then unlink it. -/
def member_events : List String → List CEvent
  | [] => []
  | p :: ps => CEvent.append p :: CEvent.delete p :: member_events ps

/-- The full event list of the streaming branch (convert.py lines 157-192):
if a file already exists at the destination path it is unlinked first
(lines 169-171, with `dest_exists` embedding the `destination_path.exists()`
filesystem check), the destination writer file is then created (line 179),
and each member is appended and deleted in order (lines 181-189).  When
the destination path coincides with a member chunk file's path, the
pre-existing-destination unlink deletes that member's file before any
append. -/
def concat_group_events (destination : String) (dest_exists : Bool)
    (members : List String) : List CEvent :=
  (if dest_exists then [CEvent.delete destination] else [])
    ++ (CEvent.create destination :: member_events members)

/-- A record circulating through the concatenation stage: its source path
and, depending on the pipeline stage, an in-memory table or the path of an
already-written parquet file. -/
structure CRecord where
  source_path : SourceFile
  table : Option (ATable Int)
  destination_path : Option String
deriving DecidableEq, Repr

/-- Embedding of `pa.concat_tables` (convert.py line 152) for same-schema members: the
first table's schema with all members' rows. -/
def tables_rows : List (ATable Int) → List (List Int)
  | [] => []
  | t :: ts => t.rows ++ tables_rows ts

/-- Embedding of `pa.concat_tables` over a record group's tables. -/
def concat_tables (ts : List (ATable Int)) : ATable Int :=
  { cols := (ts.headD ⟨[], []⟩).cols, rows := tables_rows ts }

/-- Embedding of `concat_record_group` (convert.py lines 119-197) at the
record level, returning the produced record list together with the
filesystem events it performs.  `existing` is the set of files present in
the destination directory when the task runs (it contains at least the
member chunk files, which were just written); the `destination_path.exists()`
check of line 170 is membership in it.  The source path of the merged
record is the grandparent directory joined with the first member's stem
(lines 139-147); the in-memory branch (lines 150-154) concatenates tables
with no filesystem effect; the streaming branch (lines 156-195) unlinks a
pre-existing destination file, then writes the merged parquet file named
after the grandparent directory and the stem, appending then deleting each
member file. -/
def concat_record_group_model (record_group : List CRecord) (dest_path : String)
    (existing : List String) : List CRecord × List CEvent :=
  match record_group with
  | [] => ([], [])
  | r0 :: _ =>
    let newSrc : SourceFile := ⟨r0.source_path.dirs.dropLast, r0.source_path.stem, ""⟩
    if (r0.table).isSome then
      ([{ source_path := newSrc
          table := some (concat_tables (record_group.filterMap (fun r => r.table)))
          destination_path := none }], [])
    else if (r0.destination_path).isSome then
      let destination := dest_path ++ "/" ++ grandparent_name r0.source_path
        ++ "." ++ r0.source_path.stem ++ ".parquet"
      ([{ source_path := newSrc
          table := none
          destination_path := some destination }],
       concat_group_events destination (existing.contains destination)
         (record_group.filterMap (fun r => r.destination_path)))
    else
      ([{ source_path := newSrc, table := none, destination_path := none }], [])

/-- Embedding of `concat_records` (convert.py lines 82-116): each group
with fewer than two records is skipped (`continue`, lines 100-103); the
others are replaced by their concatenated record group.  Events of all
processed groups are collected. -/
def concat_records_model (records : List (String × List CRecord)) (dest_path : String)
    (existing : List String) : List (String × List CRecord) × List CEvent :=
  match records with
  | [] => ([], [])
  | (k, g) :: rest =>
    let tail := concat_records_model rest dest_path existing
    if g.length < 2 then ((k, g) :: tail.1, tail.2)
    else
      let step := concat_record_group_model g dest_path existing
      ((k, step.1) :: tail.1, step.2 ++ tail.2)

/-! ## Helper lemmas -/

/-- Positional access into a zip of two lists. -/
theorem zip_getElem (l1 : List α) (l2 : List β) :
    ∀ (j : Nat) (a : α) (b : β), l1[j]? = some a → l2[j]? = some b →
      (l1.zip l2)[j]? = some (a, b) := by
  induction l1 generalizing l2 with
  | nil => intro j a b h; simp at h
  | cons x xs ih =>
    intro j a b h1 h2
    cases l2 with
    | nil => simp at h2
    | cons y ys =>
      match j with
      | 0 => simp_all
      | j + 1 =>
        simp only [List.zip_cons_cons, List.getElem?_cons_succ] at h1 h2 ⊢
        exact ih ys j a b h1 h2

/-- A member of a column-name list is found by `colIdx`, at an index below
the list's length. -/
theorem colIdx_of_mem (n : String) :
    ∀ (cols : List String), n ∈ cols →
      ∃ i, colIdx n cols = some i ∧ i < cols.length := by
  intro cols
  induction cols with
  | nil => intro h; simp at h
  | cons c cs ih =>
    intro h
    by_cases hc : c = n
    · exact ⟨0, by simp [colIdx, hc], by simp⟩
    · have hn : n ∈ cs := by
        rcases List.mem_cons.mp h with h' | h'
        · exact absurd h'.symm hc
        · exact h'
      obtain ⟨i, hi, hlt⟩ := ih hn
      exact ⟨i + 1, by simp [colIdx, hc, hi], by simp; omega⟩

/-- Projecting a full-width row into a list of names all present among the
columns yields one cell per requested name. -/
theorem projectRow_length (cols : List String) (row : List α)
    (hlen : row.length = cols.length) :
    ∀ canon : List String, (∀ n ∈ canon, n ∈ cols) →
      (projectRow cols canon row).length = canon.length := by
  intro canon
  induction canon with
  | nil => intro _; simp [projectRow]
  | cons c cs ih =>
    intro hsub
    obtain ⟨i, hi, hlt⟩ := colIdx_of_mem c cols (hsub c (by simp))
    have hrow : row[i]? = some row[i] := List.getElem?_eq_getElem (by omega)
    have hhead : (colIdx c cols).bind (fun j => row[j]?) = some row[i] := by
      rw [hi]; simp [hrow]
    have ihs := ih (fun n hn => hsub n (by simp [hn]))
    simp only [projectRow, List.filterMap_cons] at ihs ⊢
    simp [hhead, ihs]

/-- The number of rows streamed is the sum of the members' row counts. -/
theorem stream_rows_length (canon : List String) :
    ∀ ts : List (ATable α),
      (stream_rows canon ts).length = (ts.map (fun t => t.rows.length)).sum := by
  intro ts
  induction ts with
  | nil => simp [stream_rows]
  | cons t ts ih => simp [stream_rows, ih]

/-- Every streamed row is a member row projected into the canonical order. -/
theorem stream_rows_mem (canon : List String) :
    ∀ (ts : List (ATable α)) (row : List α), row ∈ stream_rows canon ts →
      ∃ t ∈ ts, ∃ r0 ∈ t.rows, row = projectRow t.cols canon r0 := by
  intro ts
  induction ts with
  | nil => intro row h; simp [stream_rows] at h
  | cons t ts ih =>
    intro row h
    rcases List.mem_append.mp h with h' | h'
    · obtain ⟨r0, hr0, rfl⟩ := List.mem_map.mp h'
      exact ⟨t, by simp, r0, hr0, rfl⟩
    · obtain ⟨t', ht', r0, hr0, hrow⟩ := ih row h'
      exact ⟨t', by simp [ht'], r0, hr0, hrow⟩

/-! ## Claim C1 -/

/-- C1: for every embedded-database table extraction, the output has one
row per window row, and each cell whose storage class differs from the
column's (lowercased) declared type is replaced by null while each cell
whose storage class matches is passed through unchanged. -/
theorem C1_mixed_type_extraction (cols : List SqlCol) (rows : List (List SqlVal))
    (chunk_size offset : Nat) :
    (_sqlite_mixed_type_query cols rows chunk_size offset).length
        = ((rows.drop offset).take chunk_size).length
  ∧ ∀ (i : Nat) (row : List SqlVal),
      ((rows.drop offset).take chunk_size)[i]? = some row →
      row.length = cols.length →
      ∃ row2 : List SqlVal,
        (_sqlite_mixed_type_query cols rows chunk_size offset)[i]? = some row2 ∧
        row2.length = cols.length ∧
        ∀ (j : Nat) (v : SqlVal) (c : SqlCol), row[j]? = some v → cols[j]? = some c →
          row2[j]? = some (if typeof v ≠ pyLower c.column_type then SqlVal.vnull else v) := by
  constructor
  · simp [_sqlite_mixed_type_query]
  · intro i row hwin hlen
    refine ⟨mixed_row cols row, ?_, ?_, ?_⟩
    · show (((rows.drop offset).take chunk_size).map (mixed_row cols))[i]?
          = some (mixed_row cols row)
      rw [List.getElem?_map, hwin]; rfl
    · simp [mixed_row, hlen]
    · intro j v c hv hc
      have hz := zip_getElem cols row j c v hc hv
      simp [mixed_row, List.getElem?_map, hz, mixed_case]

def c1_cols : List SqlCol := [⟨"A", "INTEGER"⟩, ⟨"B", "TEXT"⟩]

def c1_rows : List (List SqlVal) :=
  [[SqlVal.vint 1, SqlVal.vtext "a"], [SqlVal.vtext "x", SqlVal.vtext "y"]]

/-- Witness for C1: the second row of a two-column table whose integer
column holds a text value in that row. -/
theorem C1_mixed_type_extraction_witness :
    ∃ row2 : List SqlVal, (_sqlite_mixed_type_query c1_cols c1_rows 2 0)[1]? = some row2 ∧
      row2.length = c1_cols.length ∧
      ∀ (j : Nat) (v : SqlVal) (c : SqlCol),
        ([SqlVal.vtext "x", SqlVal.vtext "y"] : List SqlVal)[j]? = some v →
        c1_cols[j]? = some c →
        row2[j]? = some (if typeof v ≠ pyLower c.column_type then SqlVal.vnull else v) :=
  (C1_mixed_type_extraction c1_cols c1_rows 2 0).2 1 [SqlVal.vtext "x", SqlVal.vtext "y"]
    (by decide) (by decide)

/-! ## Claim C2 -/

/-- C2: for a record group whose members' column name sets are equal
(possibly permuted), streaming concatenation yields one output table whose
column order equals the first member's column order; it carries every
member's rows (projected into that order), one full-width row per source
row. -/
theorem C2_concat_column_order {α : Type} (basis : ATable α) (rest : List (ATable α))
    (hcols : ∀ t ∈ basis :: rest, ∀ n, n ∈ t.cols ↔ n ∈ basis.cols)
    (hrect : ∀ t ∈ basis :: rest, ∀ row ∈ t.rows, row.length = t.cols.length) :
    ∃ out, concat_record_group_streaming (basis :: rest) = some out ∧
      out.cols = basis.cols ∧
      out.rows.length = ((basis :: rest).map (fun t => t.rows.length)).sum ∧
      ∀ row ∈ out.rows, row.length = basis.cols.length := by
  refine ⟨⟨basis.cols, stream_rows basis.cols (basis :: rest)⟩, rfl, rfl, ?_, ?_⟩
  · exact stream_rows_length basis.cols (basis :: rest)
  · intro row hrow
    obtain ⟨t, ht, r0, hr0, rfl⟩ := stream_rows_mem basis.cols (basis :: rest) row hrow
    exact projectRow_length t.cols r0 (hrect t ht r0 hr0) basis.cols
      (fun n hn => (hcols t ht n).mpr hn)

def c2_basis : ATable Int := ⟨["a", "b"], [[1, 2]]⟩

def c2_other : ATable Int := ⟨["b", "a"], [[3, 4]]⟩

/-- Witness for C2: two members with permuted but equal column name sets. -/
theorem C2_concat_column_order_witness :
    ∃ out, concat_record_group_streaming [c2_basis, c2_other] = some out ∧
      out.cols = c2_basis.cols ∧
      out.rows.length = (([c2_basis, c2_other]).map (fun t => t.rows.length)).sum ∧
      ∀ row ∈ out.rows, row.length = c2_basis.cols.length :=
  C2_concat_column_order c2_basis [c2_other]
    (by
      intro t ht n
      simp only [List.mem_cons, List.not_mem_nil, or_false] at ht
      rcases ht with rfl | rfl
      · exact Iff.rfl
      · simp only [c2_other, c2_basis, List.mem_cons, List.not_mem_nil, or_false]
        tauto)
    (by
      intro t ht row hrow
      simp only [List.mem_cons, List.not_mem_nil, or_false] at ht
      rcases ht with rfl | rfl <;> simp_all [c2_basis, c2_other])

/-! ## Claim C3: lemmas relating `_column_sort` to the spec-side buckets -/

/-- The spec-side identifier test agrees with membership in `sort_first`. -/
theorem spec_id_rank_isSome_iff (x : String) :
    (spec_id_rank x).isSome ↔ pyLower x ∈ sort_first := by
  have hmem : pyLower x ∈ sort_first ↔
      (pyLower x = "tablenumber" ∨ pyLower x = "metadata_tablenumber" ∨
       pyLower x = "imagenumber" ∨ pyLower x = "metadata_imagenumber" ∨
       pyLower x = "objectnumber" ∨ pyLower x = "object_number") := by
    simp [sort_first]
  rw [hmem]
  unfold spec_id_rank
  split_ifs with h1 h2 h3 <;> simp <;> tauto

/-- The key of an identifier column: twice its spec rank, plus one for the
metadata-prefixed variant. -/
theorem id_rank_key (x : String) (r : Nat) (h : spec_id_rank x = some r) :
    r ≤ 2 ∧ (_column_sort x = 2 * r ∨ _column_sort x = 2 * r + 1) := by
  unfold spec_id_rank at h
  split_ifs at h with h1 h2 h3
  · obtain rfl : r = 0 := by simpa using h.symm
    rcases h1 with he | he <;> refine ⟨by omega, ?_⟩ <;> unfold _column_sort <;>
      rw [he] <;> decide
  · obtain rfl : r = 1 := by simpa using h.symm
    rcases h2 with he | he <;> refine ⟨by omega, ?_⟩ <;> unfold _column_sort <;>
      rw [he] <;> decide
  · obtain rfl : r = 2 := by simpa using h.symm
    rcases h3 with he | he <;> refine ⟨by omega, ?_⟩ <;> unfold _column_sort <;>
      rw [he] <;> decide

/-- The key of a non-identifier column containing the metadata marker. -/
theorem key_of_metadata (x : String) (hmem : pyLower x ∉ sort_first)
    (hsub : hasSub "metadata".data (pyLower x).data = true) :
    _column_sort x = 6 := by
  unfold _column_sort
  rw [if_neg hmem, if_pos hsub]
  decide

/-- The key of a non-identifier, non-metadata column whose lowercased name
starts with an entity name. -/
theorem key_of_entity (x : String) (k : Nat) (hmem : pyLower x ∉ sort_first)
    (hsub : hasSub "metadata".data (pyLower x).data = false)
    (hrank : later_rank (pyLower x) sort_later = some k) :
    _column_sort x = 7 + k := by
  unfold _column_sort
  rw [if_neg hmem, if_neg (by simp [hsub]), hrank]
  show 6 + 1 + k = 7 + k
  omega

/-- The key of a column matched by none of the buckets. -/
theorem key_of_rest (x : String) (hmem : pyLower x ∉ sort_first)
    (hsub : hasSub "metadata".data (pyLower x).data = false)
    (hrank : later_rank (pyLower x) sort_later = none) :
    _column_sort x = 11 := by
  unfold _column_sort
  rw [if_neg hmem, if_neg (by simp [hsub]), hrank]
  decide

/-- The rank returned by `later_rank` indexes into its list. -/
theorem later_rank_lt (l : String) :
    ∀ (ls : List String) (k : Nat), later_rank l ls = some k → k < ls.length := by
  intro ls
  induction ls with
  | nil => intro k h; simp [later_rank] at h
  | cons v vs ih =>
    intro k h
    unfold later_rank at h
    split_ifs at h with hs
    · obtain rfl : k = 0 := by simpa using h.symm
      simp
    · obtain ⟨k0, hk0, rfl⟩ := Option.map_eq_some'.mp h
      have := ih k0 hk0
      simp
      omega

/-- The enumerate loop of the source agrees with the spec-side entity
rank. -/
theorem entity_rank_eq (x : String) :
    later_rank (pyLower x) sort_later = spec_entity_rank x := by
  simp only [sort_later, later_rank, spec_entity_rank]
  split_ifs <;> rfl

/-- Every column name falls in exactly one bucket, with the key range of
that bucket. -/
theorem key_bounds (x : String) :
    (spec_bucket x = 0 ∧ _column_sort x ≤ 5) ∨
    (spec_bucket x = 1 ∧ _column_sort x = 6) ∨
    (spec_bucket x = 2 ∧ 7 ≤ _column_sort x ∧ _column_sort x ≤ 10) ∨
    (spec_bucket x = 3 ∧ _column_sort x = 11) := by
  unfold spec_bucket
  split_ifs with hid hmeta hent
  · left
    obtain ⟨r, hr⟩ := Option.isSome_iff_exists.mp hid
    have := id_rank_key x r hr
    exact ⟨rfl, by omega⟩
  · right; left
    have hmem : pyLower x ∉ sort_first :=
      fun hm => hid ((spec_id_rank_isSome_iff x).mpr hm)
    exact ⟨rfl, key_of_metadata x hmem hmeta⟩
  · right; right; left
    have hmem : pyLower x ∉ sort_first :=
      fun hm => hid ((spec_id_rank_isSome_iff x).mpr hm)
    have hsubf : hasSub "metadata".data (pyLower x).data = false :=
      Bool.eq_false_iff.mpr hmeta
    obtain ⟨k, hk⟩ := Option.isSome_iff_exists.mp hent
    have hlr : later_rank (pyLower x) sort_later = some k := by
      rw [entity_rank_eq]; exact hk
    have hklt := later_rank_lt (pyLower x) sort_later k hlr
    have hkey := key_of_entity x k hmem hsubf hlr
    simp only [sort_later, List.length_cons, List.length_nil] at hklt
    exact ⟨rfl, by omega, by omega⟩
  · right; right; right
    have hmem : pyLower x ∉ sort_first :=
      fun hm => hid ((spec_id_rank_isSome_iff x).mpr hm)
    have hsubf : hasSub "metadata".data (pyLower x).data = false :=
      Bool.eq_false_iff.mpr hmeta
    have hnone : later_rank (pyLower x) sort_later = none := by
      rw [entity_rank_eq]
      exact Option.not_isSome_iff_eq_none.mp hent
    exact ⟨rfl, key_of_rest x hmem hsubf hnone⟩

/-- A name in the entity bucket is a non-identifier without the metadata
marker. -/
theorem bucket2_elim (x : String) (h : spec_bucket x = 2) :
    pyLower x ∉ sort_first ∧ hasSub "metadata".data (pyLower x).data = false := by
  unfold spec_bucket at h
  split_ifs at h with h1 h2 h3 <;> try omega
  exact ⟨fun hm => h1 ((spec_id_rank_isSome_iff x).mpr hm), Bool.eq_false_iff.mpr h2⟩

/-- C3 (amended): the comparator `_column_sort` realizes the spec's bucket
order — identifier columns first (in table-number, image-number,
object-number order), metadata-marked columns next, entity-prefixed
columns after (ordered by which entity name matches), all remaining
columns last — while the writer itself (`write_parquet`) serializes the
table with its source column order unchanged. -/
theorem C3_column_sort_comparator :
    (∀ x y : String, spec_bucket x < spec_bucket y → _column_sort x < _column_sort y)
  ∧ (∀ (x y : String) (rx ry : Nat), spec_id_rank x = some rx →
      spec_id_rank y = some ry → rx < ry → _column_sort x < _column_sort y)
  ∧ (∀ (x y : String) (kx ky : Nat), spec_bucket x = 2 → spec_bucket y = 2 →
      spec_entity_rank x = some kx → spec_entity_rank y = some ky → kx < ky →
      _column_sort x < _column_sort y)
  ∧ (∀ (r : WriteRecord) (d : String) (u : Bool),
      (write_parquet r d u).artifact.cols = r.table.cols) := by
  refine ⟨?_, ?_, ?_, ?_⟩
  · intro x y h
    rcases key_bounds x with ⟨hx, hk⟩ | ⟨hx, hk⟩ | ⟨hx, hk1, hk2⟩ | ⟨hx, hk⟩ <;>
      rcases key_bounds y with ⟨hy, hj⟩ | ⟨hy, hj⟩ | ⟨hy, hj1, hj2⟩ | ⟨hy, hj⟩ <;>
      omega
  · intro x y rx ry hx hy hlt
    have Hx := id_rank_key x rx hx
    have Hy := id_rank_key y ry hy
    omega
  · intro x y kx ky hbx hby hex hey hlt
    obtain ⟨hmx, hsx⟩ := bucket2_elim x hbx
    obtain ⟨hmy, hsy⟩ := bucket2_elim y hby
    have ex : later_rank (pyLower x) sort_later = some kx := by
      rw [entity_rank_eq]; exact hex
    have ey : later_rank (pyLower y) sort_later = some ky := by
      rw [entity_rank_eq]; exact hey
    have Kx := key_of_entity x kx hmx hsx ex
    have Ky := key_of_entity y ky hmy hsy ey
    omega
  · intro r d u
    rfl

/-- Witness for C3: one cross-bucket pair, one identifier pair, one
entity pair, all in strict comparator order. -/
theorem C3_column_sort_comparator_witness :
    _column_sort "Metadata_Well" < _column_sort "Image_Area" ∧
    _column_sort "TableNumber" < _column_sort "ObjectNumber" ∧
    _column_sort "Image_X" < _column_sort "Nuclei_Y" :=
  ⟨C3_column_sort_comparator.1 "Metadata_Well" "Image_Area" (by decide),
   C3_column_sort_comparator.2.1 "TableNumber" "ObjectNumber" 0 2
     (by decide) (by decide) (by decide),
   C3_column_sort_comparator.2.2.1 "Image_X" "Nuclei_Y" 0 3
     (by decide) (by decide) (by decide) (by decide) (by decide)⟩

def c3_record : WriteRecord :=
  ⟨⟨["plate1"], "image", ".csv"⟩, ⟨["Zebra", "ImageNumber"], [[1, 2]]⟩⟩

/-- Counterexample for C3 as stated: the writer serializes the table in
source column order, which here is not the comparator order (the
comparator puts "ImageNumber" strictly before "Zebra"). -/
theorem C3_writer_source_order_cex :
    (write_parquet c3_record "dest" false).artifact.cols = ["Zebra", "ImageNumber"] ∧
    _column_sort "ImageNumber" < _column_sort "Zebra" ∧
    ¬ List.Pairwise (fun a b => _column_sort a ≤ _column_sort b)
        ((write_parquet c3_record "dest" false).artifact.cols) := by
  refine ⟨rfl, by decide, ?_⟩
  intro h
  have hz : (write_parquet c3_record "dest" false).artifact.cols
      = ["Zebra", "ImageNumber"] := rfl
  rw [hz] at h
  have := (List.pairwise_cons.mp h).1 "ImageNumber" (by simp)
  revert this
  decide

/-! ## Claim C4 -/

/-- C4: a file is eligible exactly when its lowercased stem is in the
target list — but when the target set is `None`, the eligibility
expression raises `TypeError` instead of accepting every file, because
Python evaluates `stem.lower() in targets` before the short-circuited
`or targets is None` clause; `get_source_filepaths` therefore fails on any
non-empty tree when given no target list. -/
theorem C4_eligibility_and_none_crash :
    (∀ stem : String, is_eligible stem none = .error .typeErr)
  ∧ (∀ (stem : String) (ts : List String),
      is_eligible stem (some ts) = .ok true ↔ pyLower stem ∈ ts)
  ∧ get_source_filepaths [⟨["plate1"], "anything", ".csv"⟩] none = .error .typeErr := by
  refine ⟨fun _ => rfl, fun stem ts => ?_, rfl⟩
  simp only [is_eligible, Except.ok.injEq]
  exact List.elem_iff

/-! ## Claim C5 -/

/-- C5: inference over the grouping keys fails with the ambiguous-datatype
error exactly when no datatype is requested and more than one distinct
lowercased suffix exists, fails with the unavailable-datatype error
exactly when a datatype is requested but absent from the discovered
suffixes, and otherwise returns the single discovered suffix (none
requested) or the validated requested one. -/
theorem C5_infer_datatype (keys : List String) :
    (infer_source_datatype keys none = .error .ambiguousDatatype ↔
      1 < (suffixes_of_keys keys).length)
  ∧ (∀ t : String, infer_source_datatype keys (some t) = .error .unavailableDatatype ↔
      t ∉ suffixes_of_keys keys)
  ∧ (∀ s : String, suffixes_of_keys keys = [s] →
      infer_source_datatype keys none = .ok s)
  ∧ (∀ t : String, t ∈ suffixes_of_keys keys →
      infer_source_datatype keys (some t) = .ok t) := by
  refine ⟨?_, ?_, ?_, ?_⟩
  · by_cases h : 1 < (suffixes_of_keys keys).length
    · simp [infer_source_datatype, h]
    · simp only [infer_source_datatype, if_neg h]
      cases hs : suffixes_of_keys keys with
      | nil => simp [hs]
      | cons a tl =>
        have htl : tl = [] := by
          rw [hs] at h
          simp only [List.length_cons, not_lt] at h
          exact List.eq_nil_of_length_eq_zero (by omega)
        subst htl
        simp [hs]
  · intro t
    by_cases h : t ∈ suffixes_of_keys keys <;> simp [infer_source_datatype, h]
  · intro s hs
    simp [infer_source_datatype, hs]
  · intro t ht
    simp [infer_source_datatype, ht]

/-- Witness for C5: a single csv source both infers and validates. -/
theorem C5_infer_datatype_witness :
    infer_source_datatype ["image.csv"] none = .ok "csv" ∧
    infer_source_datatype ["image.csv"] (some "csv") = .ok "csv" :=
  ⟨(C5_infer_datatype ["image.csv"]).2.2.1 "csv" (by decide),
   (C5_infer_datatype ["image.csv"]).2.2.2 "csv" (by decide)⟩

/-! ## Claim C6 -/

/-- C6: when discovery succeeds, grouping keys the eligible files by full
filename (stem plus suffix) ignoring parent directories — there is exactly
one group per distinct filename, each group holds exactly the eligible
files bearing its filename (whatever their directories), and every
eligible file lands in the group of its filename. -/
theorem C6_grouping (files : List SourceFile) (ts : List String)
    (groups : List (String × List SourceFile))
    (hok : get_source_filepaths files (some ts) = .ok groups) :
    groups.map Prod.fst = ((eligible_records files ts).map fname).dedup
  ∧ (groups.map Prod.fst).Nodup
  ∧ (∀ (n : String) (g : List SourceFile), (n, g) ∈ groups →
      g = (eligible_records files ts).filter (fun f => fname f == n))
  ∧ (∀ f : SourceFile, f ∈ eligible_records files ts →
      ∃ g, (fname f, g) ∈ groups ∧ f ∈ g) := by
  have hunfold : get_source_filepaths files (some ts)
      = (if (eligible_records files ts).length < 1 then Except.error PyErr.noInput
         else Except.ok ((((eligible_records files ts).map fname).dedup).map
           (fun n => (n, (eligible_records files ts).filter (fun f => fname f == n))))) :=
    rfl
  rw [hunfold] at hok
  have hgroups : groups = (((eligible_records files ts).map fname).dedup).map
      (fun n => (n, (eligible_records files ts).filter (fun f => fname f == n))) := by
    split_ifs at hok with hlt
    simpa using hok.symm
  subst hgroups
  have hfst : ((((eligible_records files ts).map fname).dedup).map
      (fun n => (n, (eligible_records files ts).filter (fun f => fname f == n)))).map
      Prod.fst = ((eligible_records files ts).map fname).dedup := by
    have hcomp : (Prod.fst ∘ fun n : String =>
        (n, (eligible_records files ts).filter (fun f => fname f == n))) = id := rfl
    rw [List.map_map, hcomp, List.map_id]
  refine ⟨hfst, ?_, ?_, ?_⟩
  · rw [hfst]
    exact List.nodup_dedup _
  · intro n g hng
    obtain ⟨n', _, heq⟩ := List.mem_map.mp hng
    rw [Prod.ext_iff] at heq
    obtain ⟨h1, h2⟩ := heq
    simp only at h1 h2
    rw [← h2, h1]
  · intro f hf
    refine ⟨(eligible_records files ts).filter (fun x => fname x == fname f), ?_, ?_⟩
    · exact List.mem_map.mpr
        ⟨fname f, List.mem_dedup.mpr (List.mem_map_of_mem fname hf), rfl⟩
    · exact List.mem_filter.mpr ⟨hf, by simp⟩

def c6_f1 : SourceFile := ⟨["plate1"], "image", ".csv"⟩

def c6_f2 : SourceFile := ⟨["plate2"], "image", ".csv"⟩

def c6_groups : List (String × List SourceFile) := [("image.csv", [c6_f1, c6_f2])]

/-- Witness for C6: two sibling directories each holding image.csv end up
as the single group keyed image.csv with both files. -/
theorem C6_grouping_witness :
    [c6_f1, c6_f2] =
      (eligible_records [c6_f1, c6_f2] ["image"]).filter
        (fun f => fname f == "image.csv") :=
  (C6_grouping [c6_f1, c6_f2] ["image"] c6_groups rfl).2.2.1
    "image.csv" [c6_f1, c6_f2] (by decide)

/-! ## Claim C7 -/

/-- String append acts as append on the underlying character lists. -/
theorem string_data_append (s t : String) : (s ++ t).data = s.data ++ t.data := by
  cases s; cases t; rfl

/-- Strings with equal character lists are equal. -/
theorem string_ext (s t : String) (h : s.data = t.data) : s = t := by
  cases s; cases t; exact congrArg String.mk h

/-- Splitting at a dot is unambiguous when the left parts are dot-free. -/
theorem dotfree_split :
    ∀ (a1 a2 b1 b2 : List Char), '.' ∉ a1 → '.' ∉ a2 →
      a1 ++ '.' :: b1 = a2 ++ '.' :: b2 → a1 = a2 ∧ b1 = b2 := by
  intro a1
  induction a1 with
  | nil =>
    intro a2 b1 b2 _ h2 heq
    cases a2 with
    | nil => simpa using heq
    | cons c cs =>
      simp only [List.nil_append, List.cons_append, List.cons.injEq] at heq
      exact absurd (heq.1 ▸ List.mem_cons_self c cs) h2
  | cons c cs ih =>
    intro a2 b1 b2 h1 h2 heq
    cases a2 with
    | nil =>
      simp only [List.nil_append, List.cons_append, List.cons.injEq] at heq
      exact absurd (heq.1.symm ▸ List.mem_cons_self c cs) h1
    | cons d ds =>
      simp only [List.cons_append, List.cons.injEq] at heq
      obtain ⟨rfl, heq2⟩ := heq
      have h1' : '.' ∉ cs := fun hm => h1 (List.mem_cons_of_mem c hm)
      have h2' : '.' ∉ ds := fun hm => h2 (List.mem_cons_of_mem c hm)
      obtain ⟨ha, hb⟩ := ih ds b1 b2 h1' h2' heq2
      exact ⟨by rw [ha], hb⟩

/-- C7 (amended): grouped destination filenames computed by
`write_parquet` differ whenever the two members' (parent-directory name,
stem) pairs differ, provided the parent names are dot-free; members that
agree on both parent name and stem receive the identical output path (see
the counterexample), so concurrent writers can collide there. -/
theorem C7_unique_dest (d : String) (r1 r2 : SourceFile)
    (h1 : '.' ∉ (parent_name r1).data) (h2 : '.' ∉ (parent_name r2).data)
    (hne : parent_name r1 ≠ parent_name r2 ∨ r1.stem ≠ r2.stem) :
    write_parquet_dest r1 d true ≠ write_parquet_dest r2 d true := by
  intro heq
  have hd : (write_parquet_dest r1 d true).data = (write_parquet_dest r2 d true).data :=
    congrArg String.data heq
  simp only [write_parquet_dest, if_pos, string_data_append, List.append_assoc] at hd
  have hd2 := List.append_cancel_left hd
  simp only [List.cons_append, List.nil_append, List.cons.injEq, true_and] at hd2
  obtain ⟨hp, hs⟩ := dotfree_split (parent_name r1).data (parent_name r2).data
    (r1.stem.data ++ ".parquet".data) (r2.stem.data ++ ".parquet".data) h1 h2 hd2
  have hstem := List.append_cancel_right hs
  rcases hne with hne | hne
  · exact hne (string_ext _ _ hp)
  · exact hne (string_ext _ _ hstem)

def c7_f1 : SourceFile := ⟨["plateA", "B1"], "image", ".csv"⟩

def c7_f2 : SourceFile := ⟨["plateB", "B1"], "image", ".csv"⟩

/-- Counterexample for C7 as stated: two distinct source files (same
parent-directory name under different grandparents, same stem) receive the
same computed destination filename, so concurrent writers can collide. -/
theorem C7_collision_cex :
    c7_f1 ≠ c7_f2 ∧
    write_parquet_dest c7_f1 "dest" true = write_parquet_dest c7_f2 "dest" true :=
  ⟨by decide, rfl⟩

/-- Witness for C7 (amended): dot-free parent names with distinct stems
map to distinct destinations. -/
theorem C7_unique_dest_witness :
    write_parquet_dest ⟨["p"], "image", ".csv"⟩ "dest" true ≠
      write_parquet_dest ⟨["p"], "cells", ".csv"⟩ "dest" true :=
  C7_unique_dest "dest" ⟨["p"], "image", ".csv"⟩ ⟨["p"], "cells", ".csv"⟩
    (by decide) (by decide) (Or.inr (by decide))

/-! ## Claim C8 -/

/-- A disambiguated destination name is never the plain one: it is
strictly longer. -/
theorem disamb_ne_plain (d p s : String) :
    d ++ "/" ++ p ++ "." ++ s ++ ".parquet" ≠ d ++ "/" ++ s ++ ".parquet" := by
  intro h
  have hlen := congrArg (fun x : String => x.data.length) h
  simp only [string_data_append, List.length_append, List.length_cons,
    List.length_nil] at hlen
  omega

/-- C8: a group member's destination filename is the disambiguated
`<parent>.<stem>.parquet` exactly when the group has two or more members,
and the plain `<stem>.parquet` exactly when the group has one member. -/
theorem C8_group_naming (group : List SourceFile) (dest : String) (r : SourceFile)
    (hr : r ∈ group) :
    (to_parquet_dest group dest r =
        dest ++ "/" ++ parent_name r ++ "." ++ r.stem ++ ".parquet" ↔ 2 ≤ group.length)
  ∧ (to_parquet_dest group dest r =
        dest ++ "/" ++ r.stem ++ ".parquet" ↔ group.length = 1) := by
  have hpos : 0 < group.length := List.length_pos_of_mem hr
  by_cases h2 : 2 ≤ group.length
  · have hval : to_parquet_dest group dest r =
        dest ++ "/" ++ parent_name r ++ "." ++ r.stem ++ ".parquet" := by
      simp [to_parquet_dest, write_parquet_dest, h2]
    constructor
    · simp [hval, h2]
    · rw [hval]
      constructor
      · intro he
        exact absurd he (disamb_ne_plain dest (parent_name r) r.stem)
      · intro h1
        omega
  · have h1 : group.length = 1 := by omega
    have hval : to_parquet_dest group dest r = dest ++ "/" ++ r.stem ++ ".parquet" := by
      simp [to_parquet_dest, write_parquet_dest, h2]
    constructor
    · rw [hval]
      constructor
      · intro he
        exact absurd he.symm (disamb_ne_plain dest (parent_name r) r.stem)
      · intro hge
        omega
    · simp [hval, h1]

def c8_a : SourceFile := ⟨["B1"], "image", ".csv"⟩

def c8_b : SourceFile := ⟨["B2"], "image", ".csv"⟩

/-- Witness for C8: a two-member group uses the disambiguated name. -/
theorem C8_group_naming_witness :
    to_parquet_dest [c8_a, c8_b] "dest" c8_a =
      "dest" ++ "/" ++ parent_name c8_a ++ "." ++ c8_a.stem ++ ".parquet" :=
  (C8_group_naming [c8_a, c8_b] "dest" c8_a (by decide)).1.mpr (by decide)

/-! ## Claim C9 -/

/-- Every member of the group has its file deleted by the writer loop. -/
theorem member_events_delete_mem :
    ∀ (ms : List String) (p : String), p ∈ ms →
      CEvent.delete p ∈ member_events ms := by
  intro ms
  induction ms with
  | nil => intro p h; simp at h
  | cons m rest ih =>
    intro p h
    rcases List.mem_cons.mp h with rfl | h'
    · simp [member_events]
    · have hmem : CEvent.delete p ∈ member_events rest := ih p h'
      simp only [member_events, List.mem_cons]
      exact Or.inr (Or.inr hmem)

/-- In the writer loop's event list, any deletion of a member file is
preceded by the append of that same file. -/
theorem member_events_delete_after :
    ∀ (ms : List String) (k : Nat) (p : String),
      (member_events ms)[k]? = some (CEvent.delete p) →
      CEvent.append p ∈ (member_events ms).take k := by
  intro ms
  induction ms with
  | nil => intro k p h; simp [member_events] at h
  | cons m rest ih =>
    intro k p h
    match k with
    | 0 => simp [member_events] at h
    | 1 =>
      simp only [member_events, List.getElem?_cons_succ, List.getElem?_cons_zero,
        Option.some.injEq, CEvent.delete.injEq] at h
      subst h
      simp [member_events, List.take_succ_cons]
    | Nat.succ (Nat.succ k') =>
      have h' : (member_events rest)[k']? = some (CEvent.delete p) := by
        simpa [member_events] using h
      have hmem := ih k' p h'
      simp only [member_events, List.take_succ_cons, List.mem_cons]
      exact Or.inr (Or.inr hmem)

/-- Every member of the group has its file deleted by the streaming
branch's event list, whether or not the destination pre-existed. -/
theorem cge_delete_mem (d : String) (b : Bool) (ms : List String) (p : String)
    (hp : p ∈ ms) : CEvent.delete p ∈ concat_group_events d b ms := by
  have hmem : CEvent.delete p ∈ CEvent.create d :: member_events ms :=
    List.mem_cons_of_mem _ (member_events_delete_mem ms p hp)
  cases b
  · show CEvent.delete p ∈ [] ++ (CEvent.create d :: member_events ms)
    rw [List.nil_append]
    exact hmem
  · show CEvent.delete p ∈
      [CEvent.delete d] ++ (CEvent.create d :: member_events ms)
    rw [List.singleton_append]
    exact List.mem_cons_of_mem _ hmem

/-- In the streaming branch's event list, any deletion of a file other
than the destination is preceded by the append of that same file (the
only deletion a pre-existing destination adds is of the destination
itself). -/
theorem cge_delete_after (d : String) (b : Bool) (ms : List String) (p : String)
    (hne : p ≠ d) :
    ∀ k : Nat, (concat_group_events d b ms)[k]? = some (CEvent.delete p) →
      CEvent.append p ∈ (concat_group_events d b ms).take k := by
  cases b
  · have he : concat_group_events d false ms
        = CEvent.create d :: member_events ms := by
      simp [concat_group_events]
    intro k h
    rw [he] at h ⊢
    match k with
    | 0 => simp at h
    | Nat.succ k' =>
      rw [List.getElem?_cons_succ] at h
      have hmem := member_events_delete_after ms k' p h
      rw [List.take_succ_cons]
      exact List.mem_cons_of_mem _ hmem
  · have he : concat_group_events d true ms
        = CEvent.delete d :: CEvent.create d :: member_events ms := by
      simp [concat_group_events]
    intro k h
    rw [he] at h ⊢
    match k with
    | 0 =>
      rw [List.getElem?_cons_zero] at h
      injection h with h1
      injection h1 with h2
      exact absurd h2.symm hne
    | 1 => simp at h
    | Nat.succ (Nat.succ k') =>
      rw [List.getElem?_cons_succ, List.getElem?_cons_succ] at h
      have hmem := member_events_delete_after ms k' p h
      rw [List.take_succ_cons, List.take_succ_cons]
      exact List.mem_cons_of_mem _ (List.mem_cons_of_mem _ hmem)

/-- C9 (amended): in the streaming branch of `concat_record_group`, every
member chunk file has been deleted once the group is concatenated, and a
member chunk file whose path differs from the computed destination path is
deleted only after its rows were appended to the destination writer; the
member whose chunk file coincides with the destination path (if any) is
instead unlinked up front by the stale-destination removal of convert.py
lines 170-171, before any append (see the counterexample). -/
theorem C9_delete_after_append (r0 : CRecord) (rest : List CRecord)
    (dest p : String) (existing : List String)
    (htab : r0.table = none) (hdst : (r0.destination_path).isSome)
    (hp : p ∈ (r0 :: rest).filterMap (fun r => r.destination_path)) :
    CEvent.delete p ∈ (concat_record_group_model (r0 :: rest) dest existing).2
  ∧ (p ≠ dest ++ "/" ++ grandparent_name r0.source_path
        ++ "." ++ r0.source_path.stem ++ ".parquet" →
      ∀ k : Nat, ((concat_record_group_model (r0 :: rest) dest existing).2)[k]?
          = some (CEvent.delete p) →
        CEvent.append p ∈
          ((concat_record_group_model (r0 :: rest) dest existing).2).take k) := by
  have hev : (concat_record_group_model (r0 :: rest) dest existing).2
      = concat_group_events
          (dest ++ "/" ++ grandparent_name r0.source_path
            ++ "." ++ r0.source_path.stem ++ ".parquet")
          (existing.contains (dest ++ "/" ++ grandparent_name r0.source_path
            ++ "." ++ r0.source_path.stem ++ ".parquet"))
          ((r0 :: rest).filterMap (fun r => r.destination_path)) := by
    simp [concat_record_group_model, htab, hdst]
  rw [hev]
  constructor
  · exact cge_delete_mem _ _ _ p hp
  · intro hne
    exact cge_delete_after _ _ _ p hne

def c9_r1 : CRecord := ⟨⟨["plate", "p1"], "image", ".csv"⟩, none, some "f1"⟩

def c9_r2 : CRecord := ⟨⟨["plate", "p2"], "image", ".csv"⟩, none, some "f2"⟩

/-- Witness for C9: a two-member group with a fresh destination; the
second member's file is deleted and its append precedes that deletion. -/
theorem C9_delete_after_append_witness :
    CEvent.delete "f2" ∈ (concat_record_group_model [c9_r1, c9_r2] "dest" []).2 ∧
    CEvent.append "f2" ∈
      ((concat_record_group_model [c9_r1, c9_r2] "dest" []).2).take 4 :=
  ⟨(C9_delete_after_append c9_r1 [c9_r2] "dest" "f2" [] rfl rfl (by decide)).1,
   (C9_delete_after_append c9_r1 [c9_r2] "dest" "f2" [] rfl rfl (by decide)).2
     (by decide) 4 rfl⟩

def c9x_r1 : CRecord := ⟨⟨["A", "B"], "image", ".csv"⟩, none,
  some "dest/B.image.parquet"⟩

def c9x_r2 : CRecord := ⟨⟨["Z", "A"], "image", ".csv"⟩, none,
  some "dest/A.image.parquet"⟩

/-- The files present in the destination directory when the concatenation
task runs: exactly the two chunk files `write_parquet` just produced for
the group (disambiguated as parent.stem, convert.py lines 230-236). -/
def c9x_existing : List String := ["dest/B.image.parquet", "dest/A.image.parquet"]

/-- Counterexample for C9 as stated: grouping ignores directories, so one
group may hold A/B/image.csv and Z/A/image.csv, whose chunk files are
dest/B.image.parquet and dest/A.image.parquet.  The concat destination
computed from the first member's grandparent directory is also
dest/A.image.parquet — the second member's chunk file — and the
stale-destination unlink of convert.py lines 170-171 deletes it as the
very first event, before any rows were appended. -/
theorem C9_pre_append_delete_cex :
    "dest/A.image.parquet" ∈
      ([c9x_r1, c9x_r2].filterMap (fun r => r.destination_path)) ∧
    ((concat_record_group_model [c9x_r1, c9x_r2] "dest" c9x_existing).2)[0]?
      = some (CEvent.delete "dest/A.image.parquet") ∧
    ¬ CEvent.append "dest/A.image.parquet" ∈
      ((concat_record_group_model [c9x_r1, c9x_r2] "dest" c9x_existing).2).take 0 :=
  ⟨by decide, rfl, by decide⟩

/-! ## Claim C10 -/

/-- C10: the concatenation stage returns every group with fewer than two
members unchanged — in place, with its records untouched — and performs no
filesystem event for such groups (no merged file created, no intermediate
file deleted). -/
theorem C10_small_groups_unchanged (records : List (String × List CRecord))
    (dest : String) (existing : List String) :
    (∀ (i : Nat) (k : String) (g : List CRecord), records[i]? = some (k, g) →
      g.length < 2 →
      (concat_records_model records dest existing).1[i]? = some (k, g))
  ∧ ((∀ p ∈ records, p.2.length < 2) →
      concat_records_model records dest existing = (records, [])) := by
  induction records with
  | nil =>
    constructor
    · intro i k g h
      simp at h
    · intro
      rfl
  | cons hd tl ih =>
    obtain ⟨k0, g0⟩ := hd
    constructor
    · intro i k g h hlen
      match i with
      | 0 =>
        simp only [List.getElem?_cons_zero, Option.some.injEq, Prod.mk.injEq] at h
        obtain ⟨rfl, rfl⟩ := h
        simp [concat_records_model, hlen]
      | Nat.succ i' =>
        have h' : tl[i']? = some (k, g) := by simpa using h
        have hout := ih.1 i' k g h' hlen
        by_cases hg : g0.length < 2 <;>
          simp only [concat_records_model, hg, if_true, if_false, reduceIte,
            List.getElem?_cons_succ] <;> exact hout
    · intro hall
      have hg0 : g0.length < 2 := hall (k0, g0) (by simp)
      have htl := ih.2 (fun p hp => hall p (by simp [hp]))
      simp [concat_records_model, hg0, htl]

def c10_rec : CRecord := ⟨⟨["p1"], "image", ".csv"⟩, none, some "f1"⟩

/-- Witness for C10: one singleton group passes through unchanged with no
events. -/
theorem C10_small_groups_unchanged_witness :
    concat_records_model [("image.csv", [c10_rec])] "dest" []
      = ([("image.csv", [c10_rec])], []) :=
  (C10_small_groups_unchanged [("image.csv", [c10_rec])] "dest" []).2 (by decide)
